import Mathlib

/-!
Verification of the blame-output parser and line-to-annotation mapper of
the st3-gitblame plugin (source file: src/blame_all.py).

The parser side of the source is the compiled regular expression built in
BlameShowAll.prepare_pattern and applied with pattern.match in
BlameShowAll.parse_blame.  We embed that pattern as a list of tokens
(literals, character-class repetitions with greedy or lazy priority) and
implement the standard leftmost backtracking matcher, which is what the
Python re engine performs on a pattern of this shape (no alternation, no
nested quantifiers).  The matcher is anchored at position 0 and accepts a
prefix of the input, exactly like re.match.

Machine caveat recorded once here: the Python classes \w and \s are
Unicode-aware; we model their ASCII fragment, which covers all characters
git emits in the sha, date, time, timezone and line-number fields.
-/

namespace GitBlame

/-- ASCII fragment of the Python regex class \s. -/
def spaceChar (c : Char) : Bool :=
  c == ' ' || c == '\t' || c == '\n' || c == '\x0b' || c == '\x0c' || c == '\r'

/-- ASCII fragment of the Python regex class \w (alphanumeric or underscore). -/
def wordChar (c : Char) : Bool :=
  c.isAlphanum || c == '_'

/-- The class [\S ] of the file group: any non-whitespace character, or a space. -/
def fileChar (c : Char) : Bool :=
  !spaceChar c || c == ' '

/-- The class matched by the dot: any character except a newline. -/
def dotChar (c : Char) : Bool :=
  c != '\n'

/-- The class \d (a decimal digit). -/
def digitChar (c : Char) : Bool :=
  c.isDigit

/-- The class [\+-] in the timezone group. -/
def signChar (c : Char) : Bool :=
  c == '+' || c == '-'

/-- Named capture groups of the pattern built in prepare_pattern. -/
inductive GName where
  | sha
  | file
  | author
  | date
  | time
  | timezone
  | line_number
  deriving DecidableEq, Repr

/-- One token of the regular expression: a literal character, an exact
repetition of a class (for the braced counters of the date and time groups),
a greedy plus or star over a class, a lazy plus or star over a class, and a
greedy optional literal (for the boundary-commit caret). -/
inductive Tok where
  | lit (c : Char)
  | reps (n : Nat) (cls : Char → Bool)
  | plusG (cls : Char → Bool)
  | starG (cls : Char → Bool)
  | plusL (cls : Char → Bool)
  | starL (cls : Char → Bool)
  | opt (c : Char)

/-- Prepend a character to the first chunk of a chunk list: used when a
star token that has already consumed a character extends its own chunk. -/
def consOnto (c : Char) : List (List Char) → List (List Char)
  | [] => [[c]]
  | p :: ps => (c :: p) :: ps

/-- The backtracking matcher, anchored at the head of the input, with a
structural fuel argument so that evaluation is definitional.  On success it
returns the chunk of characters consumed by each token of the pattern, in
order.  Greedy quantifiers try the longer consumption first, lazy ones the
shorter, and on failure of a branch the alternative is tried: this is the
leftmost backtracking search of the Python re engine. -/
def runF : Nat → List (Option GName × Tok) → List Char → Option (List (List Char))
  | 0, _, _ => none
  | _ + 1, [], _ => some []
  | fuel + 1, (_, Tok.lit c) :: rest, cs =>
    match cs with
    | [] => none
    | a :: cs' =>
      if a = c then (runF fuel rest cs').map (fun ps => [c] :: ps) else none
  | fuel + 1, (_, Tok.reps n cls) :: rest, cs =>
    let p := cs.take n
    if p.length = n && p.all cls then
      (runF fuel rest (cs.drop n)).map (fun ps => p :: ps)
    else none
  | fuel + 1, (t, Tok.plusG cls) :: rest, cs =>
    match cs with
    | [] => none
    | a :: cs' =>
      if cls a then (runF fuel ((t, Tok.starG cls) :: rest) cs').map (consOnto a)
      else none
  | fuel + 1, (t, Tok.starG cls) :: rest, cs =>
    match cs with
    | [] => (runF fuel rest []).map (fun ps => [] :: ps)
    | a :: cs' =>
      if cls a then
        ((runF fuel ((t, Tok.starG cls) :: rest) cs').map (consOnto a)).orElse
          (fun _ => (runF fuel rest (a :: cs')).map (fun ps => [] :: ps))
      else (runF fuel rest (a :: cs')).map (fun ps => [] :: ps)
  | fuel + 1, (t, Tok.plusL cls) :: rest, cs =>
    match cs with
    | [] => none
    | a :: cs' =>
      if cls a then (runF fuel ((t, Tok.starL cls) :: rest) cs').map (consOnto a)
      else none
  | fuel + 1, (t, Tok.starL cls) :: rest, cs =>
    match cs with
    | [] => (runF fuel rest []).map (fun ps => [] :: ps)
    | a :: cs' =>
      ((runF fuel rest (a :: cs')).map (fun ps => [] :: ps)).orElse
        (fun _ =>
          if cls a then (runF fuel ((t, Tok.starL cls) :: rest) cs').map (consOnto a)
          else none)
  | fuel + 1, (_, Tok.opt c) :: rest, cs =>
    match cs with
    | [] => (runF fuel rest []).map (fun ps => [] :: ps)
    | a :: cs' =>
      if a = c then
        ((runF fuel rest cs').map (fun ps => [c] :: ps)).orElse
          (fun _ => (runF fuel rest (a :: cs')).map (fun ps => [] :: ps))
      else (runF fuel rest (a :: cs')).map (fun ps => [] :: ps)

/-- Every recursive call of runF lowers the sum of the pattern length and
the input length, so this fuel is always sufficient. -/
def run (toks : List (Option GName × Tok)) (cs : List Char) : Option (List (List Char)) :=
  runF (toks.length + cs.length + 1) toks cs

/-- The pattern compiled by BlameShowAll.prepare_pattern, token by token:
sha (optional caret then word characters), whitespace, file name ([\S ]+),
whitespace, an opening parenthesis, the lazy author, whitespace, the date,
whitespace, the time, whitespace, the signed timezone, whitespace, the line
number, then the closing parenthesis and one space.  re.match anchors it at
position 0 and leaves the rest of the line unconstrained. -/
def blamePattern : List (Option GName × Tok) :=
  [ (some GName.sha, Tok.opt '^'),
    (some GName.sha, Tok.plusG wordChar),
    (none, Tok.plusG spaceChar),
    (some GName.file, Tok.plusG fileChar),
    (none, Tok.plusG spaceChar),
    (none, Tok.lit '('),
    (some GName.author, Tok.plusL dotChar),
    (none, Tok.plusG spaceChar),
    (some GName.date, Tok.reps 4 digitChar),
    (some GName.date, Tok.lit '-'),
    (some GName.date, Tok.reps 2 digitChar),
    (some GName.date, Tok.lit '-'),
    (some GName.date, Tok.reps 2 digitChar),
    (none, Tok.plusG spaceChar),
    (some GName.time, Tok.reps 2 digitChar),
    (some GName.time, Tok.lit ':'),
    (some GName.time, Tok.reps 2 digitChar),
    (some GName.time, Tok.lit ':'),
    (some GName.time, Tok.reps 2 digitChar),
    (none, Tok.plusG spaceChar),
    (some GName.timezone, Tok.reps 1 signChar),
    (some GName.timezone, Tok.plusG digitChar),
    (none, Tok.plusG spaceChar),
    (some GName.line_number, Tok.plusG digitChar),
    (none, Tok.lit ')'),
    (none, Tok.lit ' ') ]

/-- Concatenate the chunks of all tokens carrying the given group name:
the content of a named group of the match. -/
def extract (g : GName) : List (Option GName × Tok) → List (List Char) → List Char
  | (t, _) :: toks, p :: ps => (if t = some g then p else []) ++ extract g toks ps
  | _, _ => []

/-- The dictionary returned by groupdict on a successful match. -/
structure BlameRecord where
  sha : String
  file : String
  author : String
  date : String
  time : String
  timezone : String
  line_number : String
  deriving DecidableEq, Repr

/-- The Python exceptions our embedding can surface: parse_blame calls
groupdict on the result of pattern.match without a None guard, so a
non-matching line raises AttributeError. -/
inductive PyExn where
  | attributeError
  deriving DecidableEq, Repr

/-- pattern.match of the compiled blame pattern on a line. -/
def patternMatch (s : String) : Option (List (List Char)) :=
  run blamePattern s.data

/-- Build the record of named groups from the per-token chunks. -/
def groupdict (chunks : List (List Char)) : BlameRecord :=
  { sha := String.mk (extract GName.sha blamePattern chunks),
    file := String.mk (extract GName.file blamePattern chunks),
    author := String.mk (extract GName.author blamePattern chunks),
    date := String.mk (extract GName.date blamePattern chunks),
    time := String.mk (extract GName.time blamePattern chunks),
    timezone := String.mk (extract GName.timezone blamePattern chunks),
    line_number := String.mk (extract GName.line_number blamePattern chunks) }

/-- BlameShowAll.parse_blame, lines 100-105 of the source: match the line
against the pattern and return m.groupdict().  There is no None check, so a
line the pattern does not match raises AttributeError (NoneType has no
attribute groupdict) instead of returning None. -/
def parse_blame (s : String) : Except PyExn BlameRecord :=
  match patternMatch s with
  | some chunks => Except.ok (groupdict chunks)
  | none => Except.error PyExn.attributeError

/-- str.splitlines on newline-terminated text: no element for a trailing
terminator, and the empty string gives the empty list.  We model the
newline terminator only; git output decoded from utf-8 uses it. -/
def pySplitlinesGo : List Char → List Char → List String
  | [], acc => [String.mk acc.reverse]
  | '\n' :: rest, acc =>
    match rest with
    | [] => [String.mk acc.reverse]
    | _ => String.mk acc.reverse :: pySplitlinesGo rest []
  | c :: rest, acc => pySplitlinesGo rest (c :: acc)

def pySplitlines (s : String) : List String :=
  match s.data with
  | [] => []
  | cs => pySplitlinesGo cs []

/-- Line 44 of the source: the list comprehension applying parse_blame to
every line of the blame output.  A raised exception aborts the whole
comprehension, which mapM over Except models by short-circuiting. -/
def parseAllLines (output : String) : Except PyExn (List BlameRecord) :=
  (pySplitlines output).mapM parse_blame

/-- Line 45 of the source filters the parse results by Python truthiness.
A groupdict result is a dictionary with seven keys, and a non-empty
dictionary is always truthy, so once parse_blame is modelled faithfully
(it raises instead of returning None) this filter keeps every element. -/
def dictTruthy (_ : BlameRecord) : Bool :=
  true

/-- Python int() applied to the line_number group, which the pattern
guarantees is a non-empty string of decimal digits. -/
def pyIntOfDigits (s : String) : Int :=
  ((s.data.foldl (fun a c => 10 * a + (c.toNat - Char.toNat '0')) 0 : Nat) : Int)

/-- Line 56-57 of the source: the 1-based blame line number converted to
the 0-based buffer line passed to get_line_point. -/
def targetLineIndex (b : BlameRecord) : Int :=
  pyIntOfDigits b.line_number - 1

/-- Line 54 of the source: max(len(author)) over the parsed records. -/
def maxAuthorLen (blames : List BlameRecord) : Nat :=
  (blames.map (fun b => b.author.length)).foldl Nat.max 0

/-- The non-breaking space: the source pads with the HTML entity, which
renders as one U+00A0 character, so we count one character per pad unit. -/
def nbsp : Char := '\u00A0'

/-- Line 66 of the source: author + nbsp * (max_author_len - len(author)).
Python string repetition with a negative count yields the empty string,
which Int.toNat reproduces. -/
def paddedUser (maxLen : Nat) (b : BlameRecord) : List Char :=
  b.author.data ++ List.replicate ((maxLen : Int) - (b.author.length : Int)).toNat nbsp

/-- The data the source interpolates into the phantom template, lines
61-72: the line region, sha, padded author, date and time. -/
structure Phantom where
  lineIndex : Int
  sha : String
  user : List Char
  date : String
  time : String
  deriving DecidableEq, Repr

def phantomOf (maxLen : Nat) (b : BlameRecord) : Phantom :=
  { lineIndex := targetLineIndex b,
    sha := b.sha,
    user := paddedUser maxLen b,
    date := b.date,
    time := b.time }

/-- The phantom-building loop of lines 54-73 of the source. -/
def makePhantoms (blames : List BlameRecord) : List Phantom :=
  blames.map (phantomOf (maxAuthorLen blames))

/-- The observable per-view state the source manipulates: the
git-blame-all-displayed settings flag (read with default False, so an
erased flag and a False flag are the same observation), the rendered
phantoms under the git-blame-all key, the buffer text, and the horizontal
viewport position (a float in the editor, modelled as an integer offset;
the display path sets it to zero). -/
structure ViewState where
  displayed : Bool
  phantoms : List Phantom
  content : String
  viewportX : Int
  deriving DecidableEq, Repr

/-- The ways one call of BlameShowAll.run can end. -/
inductive RunOutcome where
  | unsuitable
  | toggledOff
  | invocationFailed (msg : String)
  | uncaughtExn (e : PyExn)
  | parseYieldedEmpty
  | rendered
  deriving DecidableEq, Repr

/-- BlameShowAll.run, lines 25-78 of the source.  The suitable flag stands
for view_is_suitable (defined in util.py, outside this file); blameResult
stands for the get_blame subprocess call, ok carrying the decoded output
and error the exception text that communicate_error would show.  The
phantom erase happens before the toggle check, exactly as in the source,
and the uncaught AttributeError from parse_blame propagates out of the
list comprehension of line 44. -/
def BlameShowAll.run (suitable : Bool) (blameResult : Except String String)
    (st : ViewState) : ViewState × RunOutcome :=
  if !suitable then (st, RunOutcome.unsuitable)
  else
    let st1 : ViewState := { st with phantoms := [] }
    if st1.displayed then
      ({ st1 with displayed := false }, RunOutcome.toggledOff)
    else
      match blameResult with
      | Except.error e => (st1, RunOutcome.invocationFailed e)
      | Except.ok output =>
        match parseAllLines output with
        | Except.error e => (st1, RunOutcome.uncaughtExn e)
        | Except.ok parsed =>
          let blames := parsed.filter dictTruthy
          if blames.isEmpty then (st1, RunOutcome.parseYieldedEmpty)
          else
            ({ st1 with
                phantoms := makePhantoms blames,
                displayed := true,
                viewportX := 0 }, RunOutcome.rendered)

/-- BlameEraseAll.run, lines 147-150 of the source: a status message and
erase_phantoms.  It does not touch the displayed flag. -/
def BlameEraseAll.run (st : ViewState) : ViewState :=
  { st with phantoms := [] }

/-- BlameShowAll.on_phantom_close, lines 80-83: the close href runs the
blame_erase_all command. -/
def BlameShowAll.on_phantom_close (href : String) (st : ViewState) : ViewState :=
  if href = "close" then BlameEraseAll.run st else st

/-- BlameEraseAllListener.is_applicable, lines 157-160: the listener is
attached exactly when the displayed flag is set. -/
def BlameEraseAllListener.is_applicable (st : ViewState) : Bool :=
  st.displayed

/-- BlameEraseAllListener.on_modified_async, lines 162-165: run
blame_erase_all, then erase the displayed setting. -/
def BlameEraseAllListener.on_modified (st : ViewState) : ViewState :=
  { BlameEraseAll.run st with displayed := false }

/-- A text edit as the host delivers it: the buffer content changes, and
the editor fires on_modified_async on the listener when is_applicable
holds for the view settings. -/
def modifyBuffer (newContent : String) (st : ViewState) : ViewState :=
  let st1 : ViewState := { st with content := newContent }
  if BlameEraseAllListener.is_applicable st1 then
    BlameEraseAllListener.on_modified st1
  else st1

/-- Modelled from the spec: os.path.basename of the Python standard
library (not part of this repository): the part of the path after the last
slash. -/
def basename (p : String) : String :=
  String.mk ((p.data.reverse.takeWhile (fun c => c != '/')).reverse)

/-- Modelled from the spec: os.path.dirname of the Python standard library
(not part of this repository): the part before the last slash, with
trailing slashes stripped unless the result is all slashes. -/
def dirname (p : String) : String :=
  let headRev := p.data.reverse.dropWhile (fun c => c != '/')
  let head := headRev.reverse
  if head.isEmpty || head.all (fun c => c == '/') then String.mk head
  else String.mk (head.reverse.dropWhile (fun c => c == '/')).reverse

/-- BlameShowAll.get_blame, lines 87-98 of the source, reduced to the
observable subprocess request: the exact argument vector and the working
directory.  realpath stands for os.path.realpath (symlink resolution by
the operating system), and customBlameFlags for the configured
custom_blame_flags list that pkg_settings (settings.py, outside this file)
returns; both are modelled from the spec as parameters. -/
def BlameShowAll.get_blame_cmd (realpath : String → String)
    (customBlameFlags : List String) (path : String) : List String × String :=
  let cmd_line := ["git", "blame", "--show-name", "--minimal", "-w"]
  let cmd_line := cmd_line ++ customBlameFlags
  let cmd_line := cmd_line ++ ["--", basename path]
  (cmd_line, dirname (realpath path))

/-! ## Declarative semantics of the pattern

The language of a single token, the acceptance relation of a token list
(some split of a prefix of the input into per-token chunks), and the proof
that the backtracking matcher is sound and complete for it. -/

/-- The set of character lists a single token can consume. -/
def TokLang : Tok → List Char → Prop
  | Tok.lit c, p => p = [c]
  | Tok.reps n cls, p => p.length = n ∧ ∀ c ∈ p, cls c
  | Tok.plusG cls, p => p ≠ [] ∧ ∀ c ∈ p, cls c
  | Tok.starG cls, p => ∀ c ∈ p, cls c
  | Tok.plusL cls, p => p ≠ [] ∧ ∀ c ∈ p, cls c
  | Tok.starL cls, p => ∀ c ∈ p, cls c
  | Tok.opt c, p => p = [] ∨ p = [c]

/-- A token list accepts an input when some prefix of the input splits
into chunks, one per token, each in the language of its token: the
declarative meaning of the anchored, prefix-matching pattern. -/
def Matches (toks : List (Option GName × Tok)) (cs : List Char) : Prop :=
  ∃ parts rest, List.Forall₂ (fun t p => TokLang t.2 p) toks parts ∧
    cs = parts.flatten ++ rest

theorem orElse_isSome_left {α : Type} {x : Option α} {y : Unit → Option α}
    (h : x.isSome) : (x.orElse y).isSome := by
  cases x with
  | none => simp at h
  | some v => simp [Option.orElse]

theorem orElse_isSome_right {α : Type} {x : Option α} {y : Unit → Option α}
    (h : (y ()).isSome) : (x.orElse y).isSome := by
  cases x with
  | none => simpa [Option.orElse] using h
  | some v => simp [Option.orElse]

theorem orElse_eq_some {α : Type} {x : Option α} {y : Unit → Option α} {v : α}
    (h : x.orElse y = some v) : x = some v ∨ (x = none ∧ y () = some v) := by
  cases x with
  | none => right; exact ⟨rfl, by simpa [Option.orElse] using h⟩
  | some w => left; simpa [Option.orElse] using h

/-- Soundness of the matcher: a successful run yields chunks that are in
the languages of the tokens and concatenate to a prefix of the input. -/
theorem runF_sound :
    ∀ (fuel : Nat) (toks : List (Option GName × Tok)) (cs : List Char)
      (chunks : List (List Char)),
      runF fuel toks cs = some chunks →
      List.Forall₂ (fun t p => TokLang t.2 p) toks chunks ∧
        ∃ rest, cs = chunks.flatten ++ rest := by
  intro fuel
  induction fuel with
  | zero => intro toks cs chunks h; simp [runF] at h
  | succ fuel ih =>
    intro toks cs chunks h
    rcases toks with _ | ⟨⟨t, tok⟩, rest⟩
    · simp [runF] at h
      subst h
      exact ⟨List.Forall₂.nil, cs, by simp⟩
    · cases tok with
      | lit c =>
        rcases cs with _ | ⟨a, cs'⟩
        · simp [runF] at h
        · simp only [runF] at h
          by_cases hac : a = c
          · simp [hac, Option.map_eq_some'] at h
            obtain ⟨ps, hps, hchunks⟩ := h
            obtain ⟨hfa, r, hr⟩ := ih rest cs' ps hps
            subst hchunks
            refine ⟨List.Forall₂.cons rfl hfa, r, ?_⟩
            simp [hac, hr]
          · simp [hac] at h
      | reps n cls =>
        simp only [runF] at h
        by_cases hg : (cs.take n).length = n ∧ (cs.take n).all cls
        · rw [if_pos (by simp [hg.1, hg.2])] at h
          simp only [Option.map_eq_some'] at h
          obtain ⟨ps, hps, hchunks⟩ := h
          obtain ⟨hfa, r, hr⟩ := ih rest (cs.drop n) ps hps
          subst hchunks
          refine ⟨List.Forall₂.cons ⟨hg.1, List.all_eq_true.mp hg.2⟩ hfa, r, ?_⟩
          conv_lhs => rw [← List.take_append_drop n cs]
          rw [hr]
          simp
        · rw [if_neg ?_] at h
          · exact absurd h (by simp)
          · intro hcon
            rw [Bool.and_eq_true] at hcon
            exact hg ⟨by simpa using hcon.1, hcon.2⟩
      | plusG cls =>
        rcases cs with _ | ⟨a, cs'⟩
        · simp [runF] at h
        · simp only [runF] at h
          by_cases hca : cls a
          · rw [if_pos hca] at h
            simp only [Option.map_eq_some'] at h
            obtain ⟨ps, hps, hchunks⟩ := h
            obtain ⟨hfa, r, hr⟩ := ih _ cs' ps hps
            cases hfa with
            | cons hp0 htail =>
              subst hchunks
              refine ⟨List.Forall₂.cons ⟨by simp, ?_⟩ htail, r, ?_⟩
              · intro c hc
                rcases List.mem_cons.mp hc with rfl | hc
                · exact hca
                · exact hp0 c hc
              · simp only [List.flatten_cons, List.append_assoc] at hr
                simp [consOnto, hr]
          · simp [hca] at h
      | starG cls =>
        rcases cs with _ | ⟨a, cs'⟩
        · simp only [runF, Option.map_eq_some'] at h
          obtain ⟨ps, hps, hchunks⟩ := h
          obtain ⟨hfa, r, hr⟩ := ih rest [] ps hps
          subst hchunks
          exact ⟨List.Forall₂.cons (by simp [TokLang]) hfa, r, by simpa using hr⟩
        · simp only [runF] at h
          by_cases hca : cls a
          · rw [if_pos hca] at h
            rcases orElse_eq_some h with h1 | ⟨_, h2⟩
            · simp only [Option.map_eq_some'] at h1
              obtain ⟨ps, hps, hchunks⟩ := h1
              obtain ⟨hfa, r, hr⟩ := ih _ cs' ps hps
              cases hfa with
              | cons hp0 htail =>
                subst hchunks
                refine ⟨List.Forall₂.cons ?_ htail, r, ?_⟩
                · intro c hc
                  rcases List.mem_cons.mp hc with rfl | hc
                  · exact hca
                  · exact hp0 c hc
                · simp only [List.flatten_cons, List.append_assoc] at hr
                  simp [consOnto, hr]
            · simp only [Option.map_eq_some'] at h2
              obtain ⟨ps, hps, hchunks⟩ := h2
              obtain ⟨hfa, r, hr⟩ := ih rest (a :: cs') ps hps
              subst hchunks
              exact ⟨List.Forall₂.cons (by simp [TokLang]) hfa, r, by simpa using hr⟩
          · rw [if_neg hca] at h
            simp only [Option.map_eq_some'] at h
            obtain ⟨ps, hps, hchunks⟩ := h
            obtain ⟨hfa, r, hr⟩ := ih rest (a :: cs') ps hps
            subst hchunks
            exact ⟨List.Forall₂.cons (by simp [TokLang]) hfa, r, by simpa using hr⟩
      | plusL cls =>
        rcases cs with _ | ⟨a, cs'⟩
        · simp [runF] at h
        · simp only [runF] at h
          by_cases hca : cls a
          · rw [if_pos hca] at h
            simp only [Option.map_eq_some'] at h
            obtain ⟨ps, hps, hchunks⟩ := h
            obtain ⟨hfa, r, hr⟩ := ih _ cs' ps hps
            cases hfa with
            | cons hp0 htail =>
              subst hchunks
              refine ⟨List.Forall₂.cons ⟨by simp, ?_⟩ htail, r, ?_⟩
              · intro c hc
                rcases List.mem_cons.mp hc with rfl | hc
                · exact hca
                · exact hp0 c hc
              · simp only [List.flatten_cons, List.append_assoc] at hr
                simp [consOnto, hr]
          · simp [hca] at h
      | starL cls =>
        rcases cs with _ | ⟨a, cs'⟩
        · simp only [runF, Option.map_eq_some'] at h
          obtain ⟨ps, hps, hchunks⟩ := h
          obtain ⟨hfa, r, hr⟩ := ih rest [] ps hps
          subst hchunks
          exact ⟨List.Forall₂.cons (by simp [TokLang]) hfa, r, by simpa using hr⟩
        · simp only [runF] at h
          rcases orElse_eq_some h with h1 | ⟨_, h2⟩
          · simp only [Option.map_eq_some'] at h1
            obtain ⟨ps, hps, hchunks⟩ := h1
            obtain ⟨hfa, r, hr⟩ := ih rest (a :: cs') ps hps
            subst hchunks
            exact ⟨List.Forall₂.cons (by simp [TokLang]) hfa, r, by simpa using hr⟩
          · by_cases hca : cls a
            · rw [if_pos hca] at h2
              simp only [Option.map_eq_some'] at h2
              obtain ⟨ps, hps, hchunks⟩ := h2
              obtain ⟨hfa, r, hr⟩ := ih _ cs' ps hps
              cases hfa with
              | cons hp0 htail =>
                subst hchunks
                refine ⟨List.Forall₂.cons ?_ htail, r, ?_⟩
                · intro c hc
                  rcases List.mem_cons.mp hc with rfl | hc
                  · exact hca
                  · exact hp0 c hc
                · simp only [List.flatten_cons, List.append_assoc] at hr
                  simp [consOnto, hr]
            · rw [if_neg hca] at h2
              exact absurd h2 (by simp)
      | opt c =>
        rcases cs with _ | ⟨a, cs'⟩
        · simp only [runF, Option.map_eq_some'] at h
          obtain ⟨ps, hps, hchunks⟩ := h
          obtain ⟨hfa, r, hr⟩ := ih rest [] ps hps
          subst hchunks
          exact ⟨List.Forall₂.cons (by simp [TokLang]) hfa, r, by simpa using hr⟩
        · simp only [runF] at h
          by_cases hac : a = c
          · rw [if_pos hac] at h
            rcases orElse_eq_some h with h1 | ⟨_, h2⟩
            · simp only [Option.map_eq_some'] at h1
              obtain ⟨ps, hps, hchunks⟩ := h1
              obtain ⟨hfa, r, hr⟩ := ih rest cs' ps hps
              subst hchunks
              refine ⟨List.Forall₂.cons (by simp [TokLang]) hfa, r, ?_⟩
              simp [hac, hr]
            · simp only [Option.map_eq_some'] at h2
              obtain ⟨ps, hps, hchunks⟩ := h2
              obtain ⟨hfa, r, hr⟩ := ih rest (a :: cs') ps hps
              subst hchunks
              exact ⟨List.Forall₂.cons (by simp [TokLang]) hfa, r, by simpa using hr⟩
          · rw [if_neg hac] at h
            simp only [Option.map_eq_some'] at h
            obtain ⟨ps, hps, hchunks⟩ := h
            obtain ⟨hfa, r, hr⟩ := ih rest (a :: cs') ps hps
            subst hchunks
            exact ⟨List.Forall₂.cons (by simp [TokLang]) hfa, r, by simpa using hr⟩

theorem map_isSome {α β : Type} (f : α → β) {x : Option α} (h : x.isSome) :
    (x.map f).isSome := by
  cases x with
  | none => simp at h
  | some v => simp

/-- Completeness of the matcher: whenever some split of a prefix of the
input into per-token chunks exists, the backtracking search succeeds. -/
theorem runF_complete :
    ∀ (fuel : Nat) (toks : List (Option GName × Tok)) (parts : List (List Char))
      (rest : List Char),
      List.Forall₂ (fun t p => TokLang t.2 p) toks parts →
      toks.length + (parts.flatten ++ rest).length < fuel →
      (runF fuel toks (parts.flatten ++ rest)).isSome := by
  intro fuel
  induction fuel with
  | zero => intro toks parts rest hfa hlen; omega
  | succ fuel ih =>
    intro toks parts rest hfa hlen
    cases hfa with
    | nil => simp [runF]
    | @cons tp p toks' parts' hp htail =>
      obtain ⟨t, tok⟩ := tp
      simp only [List.length_cons, List.length_append, List.length_flatten] at hlen
      cases tok with
      | lit c =>
        have hp' : p = [c] := hp
        subst hp'
        simp only [List.flatten_cons, List.cons_append, List.singleton_append]
        simp only [runF, if_pos rfl]
        refine map_isSome _ (ih toks' parts' rest htail ?_)
        simp only [List.flatten_cons, List.length_cons, List.length_nil,
          List.length_append, List.length_flatten, List.map_cons, List.sum_cons] at hlen ⊢
        omega
      | reps n cls =>
        obtain ⟨hlenp, hcls⟩ := hp
        have hflat : (p :: parts').flatten ++ rest = p ++ (parts'.flatten ++ rest) := by
          simp
        rw [hflat]
        simp only [runF]
        rw [List.take_left' hlenp, List.drop_left' hlenp]
        rw [if_pos (by simp [hlenp, List.all_eq_true.mpr hcls])]
        refine map_isSome _ (ih toks' parts' rest htail ?_)
        simp only [List.flatten_cons, List.length_cons, List.length_append,
          List.length_flatten, List.map_cons, List.sum_cons] at hlen ⊢
        omega
      | plusG cls =>
        obtain ⟨hne, hcls⟩ := hp
        rcases p with _ | ⟨a, p'⟩
        · exact absurd rfl hne
        · have hflat : ((a :: p') :: parts').flatten ++ rest =
              a :: ((p' :: parts').flatten ++ rest) := by simp
          rw [hflat]
          simp only [runF]
          rw [if_pos (hcls a (by simp))]
          refine map_isSome _ (ih ((t, Tok.starG cls) :: toks') (p' :: parts') rest ?_ ?_)
          · exact List.Forall₂.cons (fun c hc => hcls c (by simp [hc])) htail
          · simp only [List.flatten_cons, List.length_cons, List.length_append,
              List.length_flatten, List.map_cons, List.sum_cons] at hlen ⊢
            omega
      | starG cls =>
        rcases p with _ | ⟨a, p'⟩
        · have hflat : (([] : List Char) :: parts').flatten ++ rest =
              parts'.flatten ++ rest := by simp
          rw [hflat]
          have hrec : (runF fuel toks' (parts'.flatten ++ rest)).isSome := by
            refine ih toks' parts' rest htail ?_
            simp only [List.flatten_cons, List.length_cons, List.length_append,
              List.length_flatten, List.length_nil, List.map_cons, List.sum_cons] at hlen ⊢
            omega
          rcases hcs : parts'.flatten ++ rest with _ | ⟨a, cs''⟩
          · rw [hcs] at hrec
            simp only [runF]
            exact map_isSome _ hrec
          · rw [hcs] at hrec
            simp only [runF]
            by_cases hca : cls a
            · rw [if_pos hca]
              exact orElse_isSome_right (map_isSome _ hrec)
            · rw [if_neg hca]
              exact map_isSome _ hrec
        · have hflat : ((a :: p') :: parts').flatten ++ rest =
              a :: ((p' :: parts').flatten ++ rest) := by simp
          rw [hflat]
          simp only [runF]
          rw [if_pos (hp a (by simp))]
          refine orElse_isSome_left (map_isSome _
            (ih ((t, Tok.starG cls) :: toks') (p' :: parts') rest ?_ ?_))
          · exact List.Forall₂.cons (fun c hc => hp c (by simp [hc])) htail
          · simp only [List.flatten_cons, List.length_cons, List.length_append,
              List.length_flatten, List.map_cons, List.sum_cons] at hlen ⊢
            omega
      | plusL cls =>
        obtain ⟨hne, hcls⟩ := hp
        rcases p with _ | ⟨a, p'⟩
        · exact absurd rfl hne
        · have hflat : ((a :: p') :: parts').flatten ++ rest =
              a :: ((p' :: parts').flatten ++ rest) := by simp
          rw [hflat]
          simp only [runF]
          rw [if_pos (hcls a (by simp))]
          refine map_isSome _ (ih ((t, Tok.starL cls) :: toks') (p' :: parts') rest ?_ ?_)
          · exact List.Forall₂.cons (fun c hc => hcls c (by simp [hc])) htail
          · simp only [List.flatten_cons, List.length_cons, List.length_append,
              List.length_flatten, List.map_cons, List.sum_cons] at hlen ⊢
            omega
      | starL cls =>
        rcases p with _ | ⟨a, p'⟩
        · have hflat : (([] : List Char) :: parts').flatten ++ rest =
              parts'.flatten ++ rest := by simp
          rw [hflat]
          have hrec : (runF fuel toks' (parts'.flatten ++ rest)).isSome := by
            refine ih toks' parts' rest htail ?_
            simp only [List.flatten_cons, List.length_cons, List.length_append,
              List.length_flatten, List.length_nil, List.map_cons, List.sum_cons] at hlen ⊢
            omega
          rcases hcs : parts'.flatten ++ rest with _ | ⟨a, cs''⟩
          · rw [hcs] at hrec
            simp only [runF]
            exact map_isSome _ hrec
          · rw [hcs] at hrec
            simp only [runF]
            exact orElse_isSome_left (map_isSome _ hrec)
        · have hflat : ((a :: p') :: parts').flatten ++ rest =
              a :: ((p' :: parts').flatten ++ rest) := by simp
          rw [hflat]
          simp only [runF]
          refine orElse_isSome_right ?_
          rw [if_pos (hp a (by simp))]
          refine map_isSome _ (ih ((t, Tok.starL cls) :: toks') (p' :: parts') rest ?_ ?_)
          · exact List.Forall₂.cons (fun c hc => hp c (by simp [hc])) htail
          · simp only [List.flatten_cons, List.length_cons, List.length_append,
              List.length_flatten, List.map_cons, List.sum_cons] at hlen ⊢
            omega
      | opt c =>
        have hrec : ∀ tail : List Char,
            toks'.length + tail.length < fuel →
            tail = parts'.flatten ++ rest → (runF fuel toks' tail).isSome := by
          intro tail hl he
          subst he
          exact ih toks' parts' rest htail hl
        rcases hp with hp' | hp'
        · subst hp'
          have hflat : (([] : List Char) :: parts').flatten ++ rest =
              parts'.flatten ++ rest := by simp
          rw [hflat]
          have hrec2 : (runF fuel toks' (parts'.flatten ++ rest)).isSome := by
            refine hrec _ ?_ rfl
            simp only [List.flatten_cons, List.length_cons, List.length_append,
              List.length_flatten, List.length_nil, List.map_cons, List.sum_cons] at hlen ⊢
            omega
          rcases hcs : parts'.flatten ++ rest with _ | ⟨a, cs''⟩
          · rw [hcs] at hrec2
            simp only [runF]
            exact map_isSome _ hrec2
          · rw [hcs] at hrec2
            simp only [runF]
            by_cases hac : a = c
            · rw [if_pos hac]
              exact orElse_isSome_right (map_isSome _ hrec2)
            · rw [if_neg hac]
              exact map_isSome _ hrec2
        · subst hp'
          have hflat : ([c] :: parts').flatten ++ rest =
              c :: (parts'.flatten ++ rest) := by simp
          rw [hflat]
          simp only [runF, if_pos rfl]
          refine orElse_isSome_left (map_isSome _ (hrec _ ?_ rfl))
          simp only [List.flatten_cons, List.length_cons, List.length_append,
            List.length_flatten, List.length_nil, List.map_cons, List.sum_cons] at hlen ⊢
          omega

/-- The top-level matcher is sound for the declarative semantics. -/
theorem run_sound {toks : List (Option GName × Tok)} {cs : List Char}
    {chunks : List (List Char)} (h : run toks cs = some chunks) :
    List.Forall₂ (fun t p => TokLang t.2 p) toks chunks ∧
      ∃ rest, cs = chunks.flatten ++ rest :=
  runF_sound _ toks cs chunks h

/-- The top-level matcher is complete for the declarative semantics. -/
theorem run_complete {toks : List (Option GName × Tok)} {cs : List Char}
    (h : Matches toks cs) : (run toks cs).isSome := by
  obtain ⟨parts, rest, hfa, hcs⟩ := h
  subst hcs
  exact runF_complete _ toks parts rest hfa (by omega)

/-! ## The fixed grammar of a blame line, written from the words of the
specification (section 4.2): optional-caret sha, filename, parenthesized
author, date, time, signed timezone offset, line number, closing
parenthesis and one space, then the unconstrained rest of the line. -/

/-- The seven field substrings the grammar distinguishes. -/
structure BlameFields where
  sha : List Char
  file : List Char
  author : List Char
  date : List Char
  time : List Char
  timezone : List Char
  line_number : List Char

/-- One-or-more word characters. -/
def WordRun (s : List Char) : Prop :=
  s ≠ [] ∧ ∀ c ∈ s, wordChar c

/-- The sha field: an optional leading boundary-commit caret followed by
one-or-more word characters. -/
def ShaOk (s : List Char) : Prop :=
  WordRun s ∨ ∃ w, s = '^' :: w ∧ WordRun w

/-- One-or-more whitespace characters. -/
def WsRun (s : List Char) : Prop :=
  s ≠ [] ∧ ∀ c ∈ s, spaceChar c

/-- The filename field: one-or-more characters, each non-whitespace or a
space. -/
def FileOk (s : List Char) : Prop :=
  s ≠ [] ∧ ∀ c ∈ s, fileChar c

/-- The author field: a non-empty run of arbitrary non-newline
characters. -/
def AuthorOk (s : List Char) : Prop :=
  s ≠ [] ∧ ∀ c ∈ s, dotChar c

/-- The date field: exactly the shape YYYY-MM-DD. -/
def DateOk (s : List Char) : Prop :=
  ∃ y m d, s = y ++ '-' :: (m ++ '-' :: d) ∧
    y.length = 4 ∧ m.length = 2 ∧ d.length = 2 ∧
    (∀ c ∈ y, digitChar c) ∧ (∀ c ∈ m, digitChar c) ∧ (∀ c ∈ d, digitChar c)

/-- The time field: exactly the shape HH:MM:SS. -/
def TimeOk (s : List Char) : Prop :=
  ∃ th tm ts, s = th ++ ':' :: (tm ++ ':' :: ts) ∧
    th.length = 2 ∧ tm.length = 2 ∧ ts.length = 2 ∧
    (∀ c ∈ th, digitChar c) ∧ (∀ c ∈ tm, digitChar c) ∧ (∀ c ∈ ts, digitChar c)

/-- The timezone field: a sign then one-or-more digits, no colon. -/
def TzOk (s : List Char) : Prop :=
  ∃ sgn ds, s = sgn :: ds ∧ signChar sgn ∧ ds ≠ [] ∧ ∀ c ∈ ds, digitChar c

/-- The line-number field: one-or-more digits. -/
def LineNumOk (s : List Char) : Prop :=
  s ≠ [] ∧ ∀ c ∈ s, digitChar c

/-- All seven fields are well-formed. -/
def FieldsOk (f : BlameFields) : Prop :=
  ShaOk f.sha ∧ FileOk f.file ∧ AuthorOk f.author ∧ DateOk f.date ∧
    TimeOk f.time ∧ TzOk f.timezone ∧ LineNumOk f.line_number

/-- The concatenation the grammar prescribes, up to and including the
closing parenthesis and the following space. -/
def grammarConcat (f : BlameFields) (w1 w2 w3 w4 w5 w6 : List Char) : List Char :=
  f.sha ++ w1 ++ f.file ++ w2 ++
    '(' :: (f.author ++ w3 ++ f.date ++ w4 ++ f.time ++ w5 ++
      f.timezone ++ w6 ++ f.line_number ++ ')' :: [' '])

/-- The line decomposes, from position 0, into the grammar followed by an
arbitrary rest (the source-code text of the line). -/
def GrammarMatch (cs : List Char) (f : BlameFields) : Prop :=
  ∃ w1 w2 w3 w4 w5 w6 rest,
    FieldsOk f ∧ WsRun w1 ∧ WsRun w2 ∧ WsRun w3 ∧ WsRun w4 ∧ WsRun w5 ∧ WsRun w6 ∧
      cs = grammarConcat f w1 w2 w3 w4 w5 w6 ++ rest

/-- The whole line is exactly the grammar, ending at the space after the
closing parenthesis. -/
def GrammarMatchFull (cs : List Char) (f : BlameFields) : Prop :=
  ∃ w1 w2 w3 w4 w5 w6,
    FieldsOk f ∧ WsRun w1 ∧ WsRun w2 ∧ WsRun w3 ∧ WsRun w4 ∧ WsRun w5 ∧ WsRun w6 ∧
      cs = grammarConcat f w1 w2 w3 w4 w5 w6

theorem grammarMatch_of_full {cs : List Char} {f : BlameFields} {suffix : List Char}
    (h : GrammarMatchFull cs f) : GrammarMatch (cs ++ suffix) f := by
  obtain ⟨w1, w2, w3, w4, w5, w6, hF, h1, h2, h3, h4, h5, h6, hcs⟩ := h
  exact ⟨w1, w2, w3, w4, w5, w6, suffix, hF, h1, h2, h3, h4, h5, h6, by rw [hcs]⟩

/-- A grammar decomposition supplies a split of the input for the token
list of the blame pattern. -/
theorem matches_of_grammarMatch {cs : List Char} {f : BlameFields}
    (h : GrammarMatch cs f) : Matches blamePattern cs := by
  obtain ⟨w1, w2, w3, w4, w5, w6, rest, hF, hw1, hw2, hw3, hw4, hw5, hw6, hcs⟩ := h
  obtain ⟨hsha, hfile, hauth, hdate, htime, htz, hline⟩ := hF
  obtain ⟨y, m, d, hdeq, hy4, hm2, hd2, hyd, hmd, hdd⟩ := hdate
  obtain ⟨th, tm, ts, hteq, hth2, htm2, hts2, hthd, htmd, htsd⟩ := htime
  obtain ⟨sgn, ds, hzeq, hsgn, hdsne, hdsd⟩ := htz
  have hshaSplit : ∃ copt wsha, f.sha = copt ++ wsha ∧ (copt = [] ∨ copt = ['^']) ∧
      wsha ≠ [] ∧ ∀ c ∈ wsha, wordChar c := by
    rcases hsha with ⟨hne, hword⟩ | ⟨w, heq, hwne, hword⟩
    · exact ⟨[], f.sha, by simp, Or.inl rfl, hne, hword⟩
    · exact ⟨['^'], w, by simp [heq], Or.inr rfl, hwne, hword⟩
  obtain ⟨copt, wsha, hsplit, hcopt, hwne, hword⟩ := hshaSplit
  refine ⟨[copt, wsha, w1, f.file, w2, ['('], f.author, w3,
    y, ['-'], m, ['-'], d, w4, th, [':'], tm, [':'], ts, w5,
    [sgn], ds, w6, f.line_number, [')'], [' ']], rest, ?_, ?_⟩
  · simp only [blamePattern, List.forall₂_cons, TokLang]
    refine ⟨hcopt, ⟨hwne, hword⟩, hw1, hfile, hw2, trivial, hauth, hw3,
      ⟨hy4, hyd⟩, trivial, ⟨hm2, hmd⟩, trivial, ⟨hd2, hdd⟩, hw4,
      ⟨hth2, hthd⟩, trivial, ⟨htm2, htmd⟩, trivial, ⟨hts2, htsd⟩, hw5,
      ⟨by simp, ?_⟩, ⟨hdsne, hdsd⟩, hw6, hline, trivial, trivial, List.Forall₂.nil⟩
    intro c hc
    rcases List.mem_singleton.mp hc with rfl
    exact hsgn
  · rw [hcs]
    simp only [grammarConcat, hsplit, hdeq, hteq, hzeq]
    simp [List.append_assoc]

/-- The seven fields of the parsed record, as character lists. -/
def recordFields (r : BlameRecord) : BlameFields :=
  ⟨r.sha.data, r.file.data, r.author.data, r.date.data, r.time.data,
    r.timezone.data, r.line_number.data⟩

/-- Soundness at the grammar level: the groups a successful run of the
blame pattern extracts are exactly corresponding substrings of the line,
in the sense that they form a grammar decomposition of it. -/
theorem run_blame_decomposes {cs : List Char} {chunks : List (List Char)}
    (h : run blamePattern cs = some chunks) :
    GrammarMatch cs (recordFields (groupdict chunks)) := by
  obtain ⟨hfa, rest, hcs⟩ := run_sound h
  simp only [blamePattern] at hfa
  obtain ⟨p1, u1, h1, hfa1, hu1⟩ := List.forall₂_cons_left_iff.mp hfa
  obtain ⟨p2, u2, h2, hfa2, hu2⟩ := List.forall₂_cons_left_iff.mp hfa1
  obtain ⟨p3, u3, h3, hfa3, hu3⟩ := List.forall₂_cons_left_iff.mp hfa2
  obtain ⟨p4, u4, h4, hfa4, hu4⟩ := List.forall₂_cons_left_iff.mp hfa3
  obtain ⟨p5, u5, h5, hfa5, hu5⟩ := List.forall₂_cons_left_iff.mp hfa4
  obtain ⟨p6, u6, h6, hfa6, hu6⟩ := List.forall₂_cons_left_iff.mp hfa5
  obtain ⟨p7, u7, h7, hfa7, hu7⟩ := List.forall₂_cons_left_iff.mp hfa6
  obtain ⟨p8, u8, h8, hfa8, hu8⟩ := List.forall₂_cons_left_iff.mp hfa7
  obtain ⟨p9, u9, h9, hfa9, hu9⟩ := List.forall₂_cons_left_iff.mp hfa8
  obtain ⟨p10, u10, h10, hfa10, hu10⟩ := List.forall₂_cons_left_iff.mp hfa9
  obtain ⟨p11, u11, h11, hfa11, hu11⟩ := List.forall₂_cons_left_iff.mp hfa10
  obtain ⟨p12, u12, h12, hfa12, hu12⟩ := List.forall₂_cons_left_iff.mp hfa11
  obtain ⟨p13, u13, h13, hfa13, hu13⟩ := List.forall₂_cons_left_iff.mp hfa12
  obtain ⟨p14, u14, h14, hfa14, hu14⟩ := List.forall₂_cons_left_iff.mp hfa13
  obtain ⟨p15, u15, h15, hfa15, hu15⟩ := List.forall₂_cons_left_iff.mp hfa14
  obtain ⟨p16, u16, h16, hfa16, hu16⟩ := List.forall₂_cons_left_iff.mp hfa15
  obtain ⟨p17, u17, h17, hfa17, hu17⟩ := List.forall₂_cons_left_iff.mp hfa16
  obtain ⟨p18, u18, h18, hfa18, hu18⟩ := List.forall₂_cons_left_iff.mp hfa17
  obtain ⟨p19, u19, h19, hfa19, hu19⟩ := List.forall₂_cons_left_iff.mp hfa18
  obtain ⟨p20, u20, h20, hfa20, hu20⟩ := List.forall₂_cons_left_iff.mp hfa19
  obtain ⟨p21, u21, h21, hfa21, hu21⟩ := List.forall₂_cons_left_iff.mp hfa20
  obtain ⟨p22, u22, h22, hfa22, hu22⟩ := List.forall₂_cons_left_iff.mp hfa21
  obtain ⟨p23, u23, h23, hfa23, hu23⟩ := List.forall₂_cons_left_iff.mp hfa22
  obtain ⟨p24, u24, h24, hfa24, hu24⟩ := List.forall₂_cons_left_iff.mp hfa23
  obtain ⟨p25, u25, h25, hfa25, hu25⟩ := List.forall₂_cons_left_iff.mp hfa24
  obtain ⟨p26, u26, h26, hfa26, hu26⟩ := List.forall₂_cons_left_iff.mp hfa25
  have hu27 := List.forall₂_nil_left_iff.mp hfa26
  subst hu27 hu26 hu25 hu24 hu23 hu22 hu21 hu20 hu19 hu18 hu17 hu16 hu15 hu14 hu13 hu12 hu11 hu10 hu9 hu8 hu7 hu6 hu5 hu4 hu3 hu2 hu1
  simp only [TokLang] at h1 h2 h3 h4 h5 h6 h7 h8 h9 h10 h11 h12 h13 h14 h15 h16 h17 h18 h19 h20 h21 h22 h23 h24 h25 h26
  subst h6 h10 h12 h16 h18 h25 h26
  obtain ⟨c21, hc21⟩ := List.length_eq_one.mp h21.1
  have hfields : recordFields (groupdict
      [p1, p2, p3, p4, p5, ['('], p7, p8, p9, ['-'], p11, ['-'], p13, p14,
        p15, [':'], p17, [':'], p19, p20, p21, p22, p23, p24, [')'], [' ']]) =
      ⟨p1 ++ p2, p4, p7, p9 ++ '-' :: (p11 ++ '-' :: p13),
        p15 ++ ':' :: (p17 ++ ':' :: p19), p21 ++ p22, p24⟩ := by
    simp [recordFields, groupdict, extract, blamePattern]
  rw [hfields]
  refine ⟨p3, p5, p8, p14, p20, p23, rest, ⟨?_, ?_, ?_, ?_, ?_, ?_, ?_⟩,
    h3, h5, h8, h14, h20, h23, ?_⟩
  · rcases h1 with h1 | h1
    · subst h1
      exact Or.inl ⟨by simpa using h2.1, by simpa using h2.2⟩
    · subst h1
      exact Or.inr ⟨p2, rfl, h2.1, h2.2⟩
  · exact h4
  · exact h7
  · exact ⟨p9, p11, p13, rfl, h9.1, h11.1, h13.1, h9.2, h11.2, h13.2⟩
  · exact ⟨p15, p17, p19, rfl, h15.1, h17.1, h19.1, h15.2, h17.2, h19.2⟩
  · refine ⟨c21, p22, by simp [hc21], ?_, h22.1, h22.2⟩
    exact h21.2 c21 (by simp [hc21])
  · exact h24
  · rw [hcs]
    simp [grammarConcat, List.append_assoc]

/-- Lines with a grammar decomposition parse successfully, and the groups
of the returned record themselves decompose the line. -/
theorem parse_blame_of_grammarMatch {line : String} {f : BlameFields}
    (h : GrammarMatch line.data f) :
    ∃ r : BlameRecord, parse_blame line = Except.ok r ∧
      GrammarMatch line.data (recordFields r) := by
  have hm := run_complete (matches_of_grammarMatch h)
  obtain ⟨chunks, hchunks⟩ := Option.isSome_iff_exists.mp hm
  refine ⟨groupdict chunks, ?_, run_blame_decomposes hchunks⟩
  simp [parse_blame, patternMatch, hchunks]

/-! ## The claims -/

/-- Claim C1: for every raw blame output line matching the fixed grammar
(optional-caret sha, filename, parenthesized author, date, time, signed
timezone offset, line number, closing parenthesis and space), parse_blame
returns a record whose sha, file, author, date, time, timezone and
line_number fields equal exactly the corresponding substrings of the line
(they form a grammar decomposition of it), with a leading boundary-commit
caret preserved verbatim in the sha field when present. -/
theorem c1_parse_extracts_fields (line : String)
    (h : ∃ f, GrammarMatch line.data f) :
    ∃ r : BlameRecord, parse_blame line = Except.ok r ∧
      GrammarMatch line.data (recordFields r) := by
  obtain ⟨f, hf⟩ := h
  exact parse_blame_of_grammarMatch hf

/-- Witness for C1 at the Scenario A line: the line matches the grammar,
so parse_blame extracts its fields exactly. -/
theorem c1_parse_extracts_fields_witness :
    (∃ f, GrammarMatch (String.data
      "abc1234 file.py (Alice Smith 2021-05-01 10:00:00 +0000 3) some code") f) ∧
    (∃ r : BlameRecord,
      parse_blame "abc1234 file.py (Alice Smith 2021-05-01 10:00:00 +0000 3) some code" =
        Except.ok r ∧
      GrammarMatch (String.data
        "abc1234 file.py (Alice Smith 2021-05-01 10:00:00 +0000 3) some code")
        (recordFields r)) := by
  have hf : ∃ f, GrammarMatch (String.data
      "abc1234 file.py (Alice Smith 2021-05-01 10:00:00 +0000 3) some code") f := by
    refine ⟨⟨"abc1234".data, "file.py".data, "Alice Smith".data, "2021-05-01".data,
      "10:00:00".data, "+0000".data, "3".data⟩,
      [' '], [' '], [' '], [' '], [' '], [' '], "some code".data,
      ⟨?_, ?_, ?_, ?_, ?_, ?_, ?_⟩, ?_, ?_, ?_, ?_, ?_, ?_, ?_⟩
    · exact Or.inl ⟨by decide, by decide⟩
    · exact ⟨by decide, by decide⟩
    · exact ⟨by decide, by decide⟩
    · exact ⟨"2021".data, "05".data, "01".data, by decide, by decide, by decide,
        by decide, by decide, by decide, by decide⟩
    · exact ⟨"10".data, "00".data, "00".data, by decide, by decide, by decide,
        by decide, by decide, by decide, by decide⟩
    · exact ⟨'+', "0000".data, by decide, by decide, by decide, by decide⟩
    · exact ⟨by decide, by decide⟩
    · exact ⟨by decide, by decide⟩
    · exact ⟨by decide, by decide⟩
    · exact ⟨by decide, by decide⟩
    · exact ⟨by decide, by decide⟩
    · exact ⟨by decide, by decide⟩
    · exact ⟨by decide, by decide⟩
    · decide
  exact ⟨hf, c1_parse_extracts_fields _ hf⟩

/-- Claim C2 (code bug): the claim says parse_blame returns no record and
never raises on a malformed line; in the source, parse_blame calls
groupdict on the None that pattern.match returns for such a line, raising
AttributeError.  The filter on line 45 of the source, which drops falsy
parse results, shows the intended behaviour was to return None. -/
theorem c2_parse_blame_raises_on_malformed :
    parse_blame "fatal: no such path" = Except.error PyExn.attributeError := by
  rfl

/-- Claim C3 (code bug): on raw output whose lines all fail to parse, the
claim says the ParseYieldedEmpty message is reported with no display; in
the source the AttributeError raised by parse_blame aborts the list
comprehension of line 44 before the empty check of line 46 is reached, so
no ParseYieldedEmpty report happens.  No display output is produced, but
by exception, not by the promised error path. -/
theorem c3_run_uncaught_exception :
    BlameShowAll.run true (Except.ok "fatal: no such path") ⟨false, [], "", 0⟩ =
      (⟨false, [], "", 0⟩, RunOutcome.uncaughtExn PyExn.attributeError) ∧
    RunOutcome.uncaughtExn PyExn.attributeError ≠ RunOutcome.parseYieldedEmpty := by
  exact ⟨by rfl, by decide⟩

/-- Claim C4: the blame invocation is exactly git blame --show-name
--minimal -w, then the configured extra flags in order, then the path
separator, then the base name of the file, which contains no slash; the
working directory is the dirname of the realpath of the file. -/
theorem c4_invocation_command (realpath : String → String)
    (flags : List String) (path : String) :
    BlameShowAll.get_blame_cmd realpath flags path =
      (["git", "blame", "--show-name", "--minimal", "-w"] ++ flags ++
        ["--", basename path], dirname (realpath path)) ∧
    (basename path).data.all (fun c => c != '/') := by
  refine ⟨by simp [BlameShowAll.get_blame_cmd], ?_⟩
  rw [List.all_eq_true]
  intro c hc
  simp only [basename] at hc
  have hc' : c ∈ (path.data.reverse.takeWhile (fun c => c != '/')) := by
    simpa using List.mem_reverse.mp hc
  have h2 := List.mem_takeWhile_imp hc'
  exact h2

/-- Claim C5: for a parsed record whose line number value n is at least 1,
the mapper computes the 0-based buffer line index n - 1, which is not
negative. -/
theorem c5_target_line_index (b : BlameRecord)
    (h : 1 ≤ pyIntOfDigits b.line_number) :
    targetLineIndex b = pyIntOfDigits b.line_number - 1 ∧
      0 ≤ targetLineIndex b := by
  refine ⟨rfl, ?_⟩
  simp only [targetLineIndex]
  omega

/-- Witness for C5 at a record with line number 3. -/
theorem c5_target_line_index_witness :
    1 ≤ pyIntOfDigits
      (⟨"abc", "f", "Al", "2021-05-01", "10:00:00", "+0000", "3"⟩ : BlameRecord).line_number ∧
    (targetLineIndex ⟨"abc", "f", "Al", "2021-05-01", "10:00:00", "+0000", "3"⟩ =
      pyIntOfDigits (⟨"abc", "f", "Al", "2021-05-01", "10:00:00", "+0000", "3"⟩ : BlameRecord).line_number - 1 ∧
      0 ≤ targetLineIndex ⟨"abc", "f", "Al", "2021-05-01", "10:00:00", "+0000", "3"⟩) :=
  ⟨by decide, c5_target_line_index _ (by decide)⟩

theorem le_foldl_max (l : List Nat) (i a : Nat) (h : a ∈ l ∨ a ≤ i) :
    a ≤ l.foldl Nat.max i := by
  induction l generalizing i with
  | nil =>
    rcases h with h | h
    · simp at h
    · simpa using h
  | cons x xs ih =>
    rcases h with h | h
    · rcases List.mem_cons.mp h with rfl | h
      · exact ih _ (Or.inr (Nat.le_max_right i a))
      · exact ih _ (Or.inl h)
    · exact ih _ (Or.inr (Nat.le_trans h (Nat.le_max_left i x)))

/-- Claim C6: for every record of a non-empty blame set, the pad count
max_author_len - len(author) is not negative, and the padded author field
rendered for the phantom has length exactly max_author_len. -/
theorem c6_author_padding (blames : List BlameRecord) (b : BlameRecord)
    (hb : b ∈ blames) :
    0 ≤ (maxAuthorLen blames : Int) - (b.author.length : Int) ∧
    (paddedUser (maxAuthorLen blames) b).length = maxAuthorLen blames := by
  have hle : b.author.length ≤ maxAuthorLen blames := by
    refine le_foldl_max _ 0 _ (Or.inl ?_)
    exact List.mem_map_of_mem (fun b => b.author.length) hb
  have hdata : b.author.length = b.author.data.length := rfl
  refine ⟨by omega, ?_⟩
  simp only [paddedUser, List.length_append, List.length_replicate]
  omega

/-- Witness for C6 at the Scenario D pair of authors Al and Bob Jones:
both padded fields have length 9. -/
theorem c6_author_padding_witness :
    ((⟨"a1", "f", "Al", "d", "t", "z", "1"⟩ : BlameRecord) ∈
      [(⟨"a1", "f", "Al", "d", "t", "z", "1"⟩ : BlameRecord),
        ⟨"a2", "f", "Bob Jones", "d", "t", "z", "2"⟩]) ∧
    (0 ≤ (maxAuthorLen [(⟨"a1", "f", "Al", "d", "t", "z", "1"⟩ : BlameRecord),
        ⟨"a2", "f", "Bob Jones", "d", "t", "z", "2"⟩] : Int) -
        ((⟨"a1", "f", "Al", "d", "t", "z", "1"⟩ : BlameRecord).author.length : Int) ∧
      (paddedUser (maxAuthorLen [(⟨"a1", "f", "Al", "d", "t", "z", "1"⟩ : BlameRecord),
        ⟨"a2", "f", "Bob Jones", "d", "t", "z", "2"⟩])
        ⟨"a1", "f", "Al", "d", "t", "z", "1"⟩).length =
        maxAuthorLen [(⟨"a1", "f", "Al", "d", "t", "z", "1"⟩ : BlameRecord),
          ⟨"a2", "f", "Bob Jones", "d", "t", "z", "2"⟩]) :=
  ⟨by decide, c6_author_padding _ _ (by decide)⟩

/-- Claim C7: once annotations are displayed, any text edit on the buffer
clears the rendered phantoms and resets the displayed flag, with no
further action by the caller: the listener is applicable exactly when the
flag is set, and its hook erases the phantoms and the flag. -/
theorem c7_edit_invalidates_display (st : ViewState) (newContent : String)
    (h : st.displayed = true) :
    (modifyBuffer newContent st).phantoms = [] ∧
    (modifyBuffer newContent st).displayed = false := by
  simp [modifyBuffer, BlameEraseAllListener.is_applicable,
    BlameEraseAllListener.on_modified, BlameEraseAll.run, h]

/-- Witness for C7 at a displayed state with one phantom. -/
theorem c7_edit_invalidates_display_witness :
    (ViewState.displayed ⟨true, [⟨0, "abc", [], "d", "t"⟩], "old", 0⟩ = true) ∧
    ((modifyBuffer "new" ⟨true, [⟨0, "abc", [], "d", "t"⟩], "old", 0⟩).phantoms = [] ∧
      (modifyBuffer "new" ⟨true, [⟨0, "abc", [], "d", "t"⟩], "old", 0⟩).displayed = false) :=
  ⟨rfl, c7_edit_invalidates_display _ "new" rfl⟩

/-- Claim C8 counterexample: the claim says the explicit erase-all command
clears the displayed flag; on a displayed state, running BlameEraseAll
leaves the flag set. -/
theorem c8_erase_flag_counterexample :
    (BlameEraseAll.run ⟨true, [⟨0, "abc", [], "d", "t"⟩], "", 0⟩).phantoms = [] ∧
    (BlameEraseAll.run ⟨true, [⟨0, "abc", [], "d", "t"⟩], "", 0⟩).displayed = true := by
  exact ⟨rfl, rfl⟩

/-- Claim C8 (amended): the erase-all command removes the rendered
phantoms but leaves the displayed flag unchanged; the flag is cleared by
the toggle-off path or by the modification listener, not by the command
itself.  Closing a phantom runs exactly this command. -/
theorem c8_erase_clears_phantoms_only (st : ViewState) :
    (BlameEraseAll.run st).phantoms = [] ∧
    (BlameEraseAll.run st).displayed = st.displayed ∧
    BlameShowAll.on_phantom_close "close" st = BlameEraseAll.run st :=
  ⟨rfl, rfl, rfl⟩

set_option maxRecDepth 80000 in
/-- Claim C9 counterexample: the claim says characters after the closing
parenthesis and space have no effect on the extracted fields; appending
text that contains a second parenthesized group changes the extracted
file, author, date, time and line number, because the greedy filename
group prefers the rightmost feasible split. -/
theorem c9_trailing_text_counterexample :
    parse_blame "abc f (Al 2021-05-01 10:00:00 +0000 3) " =
      Except.ok ⟨"abc", "f", "Al", "2021-05-01", "10:00:00", "+0000", "3"⟩ ∧
    parse_blame ("abc f (Al 2021-05-01 10:00:00 +0000 3) " ++
        "x (Bob 2021-01-01 11:11:11 +0000 5) y") =
      Except.ok ⟨"abc", "f (Al 2021-05-01 10:00:00 +0000 3) x", "Bob",
        "2021-01-01", "11:11:11", "+0000", "5"⟩ ∧
    (⟨"abc", "f", "Al", "2021-05-01", "10:00:00", "+0000", "3"⟩ : BlameRecord) ≠
      ⟨"abc", "f (Al 2021-05-01 10:00:00 +0000 3) x", "Bob",
        "2021-01-01", "11:11:11", "+0000", "5"⟩ := by
  refine ⟨by rfl, ?_, by decide⟩
  rfl

/-- Claim C9 (amended): matching is prefix-anchored: every line whose
prefix matches the whole grammar produces a record, whatever follows the
closing parenthesis and space, and the record fields decompose the full
line; but the trailing characters can influence which decomposition is
extracted, so they are not without effect on the fields. -/
theorem c9_prefix_match_produces_record (line suffix : String)
    (h : ∃ f, GrammarMatchFull line.data f) :
    ∃ r : BlameRecord, parse_blame (line ++ suffix) = Except.ok r ∧
      GrammarMatch (line ++ suffix).data (recordFields r) := by
  obtain ⟨f, hf⟩ := h
  have hm : GrammarMatch (line ++ suffix).data f := by
    rw [String.data_append line suffix]
    exact grammarMatch_of_full hf
  exact parse_blame_of_grammarMatch hm

/-- Witness for C9 (amended) at a fully matching line with a trailing
second parenthesized group. -/
theorem c9_prefix_match_produces_record_witness :
    (∃ f, GrammarMatchFull (String.data "abc f (Al 2021-05-01 10:00:00 +0000 3) ") f) ∧
    (∃ r : BlameRecord,
      parse_blame ("abc f (Al 2021-05-01 10:00:00 +0000 3) " ++
        "x (Bob 2021-01-01 11:11:11 +0000 5) y") = Except.ok r ∧
      GrammarMatch ("abc f (Al 2021-05-01 10:00:00 +0000 3) " ++
        "x (Bob 2021-01-01 11:11:11 +0000 5) y").data (recordFields r)) := by
  have hf : ∃ f, GrammarMatchFull
      (String.data "abc f (Al 2021-05-01 10:00:00 +0000 3) ") f := by
    refine ⟨⟨"abc".data, "f".data, "Al".data, "2021-05-01".data,
      "10:00:00".data, "+0000".data, "3".data⟩,
      [' '], [' '], [' '], [' '], [' '], [' '],
      ⟨?_, ?_, ?_, ?_, ?_, ?_, ?_⟩, ?_, ?_, ?_, ?_, ?_, ?_, ?_⟩
    · exact Or.inl ⟨by decide, by decide⟩
    · exact ⟨by decide, by decide⟩
    · exact ⟨by decide, by decide⟩
    · exact ⟨"2021".data, "05".data, "01".data, by decide, by decide, by decide,
        by decide, by decide, by decide, by decide⟩
    · exact ⟨"10".data, "00".data, "00".data, by decide, by decide, by decide,
        by decide, by decide, by decide, by decide⟩
    · exact ⟨'+', "0000".data, by decide, by decide, by decide, by decide⟩
    · exact ⟨by decide, by decide⟩
    · exact ⟨by decide, by decide⟩
    · exact ⟨by decide, by decide⟩
    · exact ⟨by decide, by decide⟩
    · exact ⟨by decide, by decide⟩
    · exact ⟨by decide, by decide⟩
    · exact ⟨by decide, by decide⟩
    · decide
  exact ⟨hf, c9_prefix_match_produces_record _ _ hf⟩

/-- Claim C10: when the show command runs on a suitable view whose
displayed flag is set, the result is exactly the toggle-off: phantoms
erased, the flag reset, every other component of the view state unchanged,
and the outcome is the same whatever the blame subprocess would have
returned, since it is never started on this path. -/
theorem c10_toggle_off_only (st : ViewState) (blameResult : Except String String)
    (h : st.displayed = true) :
    BlameShowAll.run true blameResult st =
      ({ st with phantoms := [], displayed := false }, RunOutcome.toggledOff) := by
  simp [BlameShowAll.run, h]

/-- Witness for C10 at a displayed state with one phantom and a failing
blame result. -/
theorem c10_toggle_off_only_witness :
    (ViewState.displayed ⟨true, [⟨0, "abc", [], "d", "t"⟩], "text", 7⟩ = true) ∧
    BlameShowAll.run true (Except.error "fatal") ⟨true, [⟨0, "abc", [], "d", "t"⟩], "text", 7⟩ =
      (⟨false, [], "text", 7⟩, RunOutcome.toggledOff) :=
  ⟨rfl, c10_toggle_off_only _ (Except.error "fatal") rfl⟩

end GitBlame
